import Mathlib

/-!
Shallow embedding of the invoice application's domain core: the schema
(shared/schema.ts), the in-memory store (server/storage.ts, class MemStorage)
and the request handlers of server/routes.ts that the claims reference.

Numbers: the source manipulates invoice money amounts through the JavaScript
idiom toFixed applied to parseFloat results.  The embedding models the decimal
strings exactly: a parsed value is a mantissa over a power of ten, arithmetic
on such values is exact, and rounding to two decimals is floor of the scaled
value plus one half, which agrees with toFixed on every value whose decimal
expansion is exact (all values exercised by the claims).  NaN, produced by
parseFloat on a non-numeric string, is modelled by Option.none and propagates
through arithmetic exactly as in the source.  The modelled fragment of
parseFloat covers optional sign, integer digits and fraction digits (the
longest such leading portion of the string), without exponents, leading
whitespace or Infinity, none of which the repository's inputs use.
-/

namespace InvoiceApp

/-- JavaScript value of a nullable optional text column: undefined, null or a
string.  Strict equality and truthiness are defined below. -/
inductive JsStr where
  | undef : JsStr
  | null : JsStr
  | str (s : String) : JsStr
deriving DecidableEq, Repr

/-- JavaScript value of a nullable optional boolean column. -/
inductive JsBool where
  | undef : JsBool
  | null : JsBool
  | val (b : Bool) : JsBool
deriving DecidableEq, Repr

/-- JavaScript truthiness of a nullable optional boolean: only the value true
is truthy; false, null and undefined are falsy. -/
def jsTruthy : JsBool → Bool
  | .val b => b
  | _ => false

/-- JavaScript strict equality on nullable optional strings: undefined and
null are each equal only to themselves, strings compare by content. -/
def jsStrEq : JsStr → JsStr → Bool
  | .undef, .undef => true
  | .null, .null => true
  | .str a, .str b => a == b
  | _, _ => false

/-- Exact decimal number: the value m / 10 ^ e. -/
structure Dec where
  m : ℤ
  e : ℕ
deriving DecidableEq, Repr

/-- Exact addition of decimals, aligning to the larger scale. -/
def Dec.add (a b : Dec) : Dec :=
  ⟨a.m * 10 ^ (max a.e b.e - a.e) + b.m * 10 ^ (max a.e b.e - b.e), max a.e b.e⟩

/-- Multiplication of a decimal by an integer (a line item quantity). -/
def Dec.mulInt (a : Dec) (k : ℤ) : Dec :=
  ⟨a.m * k, a.e⟩

/-- The rational value of a decimal, for specification-level statements. -/
def Dec.toRat (a : Dec) : ℚ :=
  (a.m : ℚ) / 10 ^ a.e

/-- The value of a decimal in cents, rounded half up: the integer
floor of (value times 100 plus one half), written with integer division so
that concrete instances evaluate inside the kernel. -/
def centsOfDec (d : Dec) : ℤ :=
  (200 * d.m + 10 ^ d.e) / (2 * 10 ^ d.e)

/-- Numeric value of a decimal digit character. -/
def digitVal (c : Char) : Option Nat :=
  if c.isDigit then some (c.toNat - 48) else none

/-- Character of a decimal digit. -/
def digitChar (d : Nat) : Char :=
  Char.ofNat (48 + d)

/-- Take the longest run of digit characters from the front of a character
list, returning their numeric values and the remainder. -/
def takeDigits : List Char → List Nat × List Char
  | [] => ([], [])
  | c :: cs =>
    match digitVal c with
    | some d =>
      let p := takeDigits cs
      (d :: p.1, p.2)
    | none => ([], c :: cs)

/-- Numeric value of a big-endian digit list. -/
def digitsToNat (ds : List Nat) : Nat :=
  ds.foldl (fun a d => a * 10 + d) 0

/-- Optional leading sign of a numeric literal. -/
def takeSign (cs : List Char) : Bool × List Char :=
  match cs with
  | c :: rest =>
    if c == '-' then (true, rest)
    else if c == '+' then (false, rest)
    else (false, c :: rest)
  | [] => (false, [])

/-- Fraction digits following a decimal point, if the next character is a
decimal point. -/
def takeFraction (cs : List Char) : List Nat × List Char :=
  match cs with
  | c :: rest => if c == '.' then takeDigits rest else ([], c :: rest)
  | [] => ([], [])

/-- Mantissa of a parsed literal: integer digits shifted past the fraction
digits. -/
def mantOf (ip fp : List Nat) : ℤ :=
  (digitsToNat ip : ℤ) * 10 ^ fp.length + (digitsToNat fp : ℤ)

/-- Parse integer and fraction digits after the optional sign. -/
def parseAfterSign (neg : Bool) (cs : List Char) : Option Dec :=
  if (takeDigits cs).1.isEmpty && (takeFraction (takeDigits cs).2).1.isEmpty then none
  else
    some
      ⟨(if neg then -(mantOf (takeDigits cs).1 (takeFraction (takeDigits cs).2).1)
        else mantOf (takeDigits cs).1 (takeFraction (takeDigits cs).2).1),
        (takeFraction (takeDigits cs).2).1.length⟩

/-- Model of JavaScript parseFloat on the decimal fragment the repository
uses: optional sign, integer digits, optional point and fraction digits read
from the front of the string, trailing characters ignored; none (NaN) when no
digit is found. -/
def parseFloat (s : String) : Option Dec :=
  parseAfterSign (takeSign s.toList).1 (takeSign s.toList).2

/-- Big-endian digit list of a natural number, by repeated division; the
fuel argument makes the recursion structural so that concrete instances
reduce inside the kernel (fuel n + 1 suffices for n). -/
def natDigitsAux : Nat → Nat → List Nat
  | 0, _ => []
  | fuel + 1, n => if n < 10 then [n] else natDigitsAux fuel (n / 10) ++ [n % 10]

/-- Big-endian digit list of a natural number. -/
def natDigits (n : Nat) : List Nat :=
  natDigitsAux (n + 1) n

/-- Decimal digit characters of a natural number, as JavaScript renders it. -/
def natChars (n : Nat) : List Char :=
  (natDigits n).map digitChar

/-- Decimal string of a natural number. -/
def natStr (n : Nat) : String :=
  String.mk (natChars n)

/-- A cent count below 100 padded to exactly two digits. -/
def pad2Digits (f : Nat) : List Nat :=
  if f < 10 then [0, f] else natDigits f

/-- Character form of the two padded fraction digits. -/
def pad2Chars (f : Nat) : List Char :=
  (pad2Digits f).map digitChar

/-- Characters of an integer cent count rendered with exactly two fraction
digits, as JavaScript toFixed(2) renders the values the claims exercise. -/
def renderCentsChars (n : ℤ) : List Char :=
  (if n < 0 then ['-'] else []) ++ natChars (n.natAbs / 100)
    ++ '.' :: pad2Chars (n.natAbs % 100)

/-- String form of an integer cent count with exactly two fraction digits. -/
def renderCents (n : ℤ) : String :=
  String.mk (renderCentsChars n)

/-- toFixed(2) of an exact decimal value. -/
def toFixed2 (d : Dec) : String :=
  renderCents (centsOfDec d)

/-- toFixed(2) of a possibly-NaN value: NaN renders as the string NaN. -/
def jsToFixed2 : Option Dec → String
  | none => "NaN"
  | some d => toFixed2 d

/-- A stored line item row (table line_items of shared/schema.ts). -/
structure LineItem where
  id : String
  invoiceId : String
  description : String
  quantity : Int
  rate : String
  amount : String
deriving DecidableEq, Repr

/-- A stored invoice row (table invoices of shared/schema.ts).  Columns that
are nullable and optional are JsStr or JsBool values; tax is not nullable but
the insert schema leaves it optional and MemStorage copies it from the
request unchanged, so it may be undefined (none).  Timestamps are modelled as
natural numbers supplied by the caller in place of Date.now. -/
structure Invoice where
  id : String
  invoiceNumber : String
  status : String
  companyName : String
  companyEmail : String
  companyPhone : JsStr
  companyWebsite : JsStr
  companyAddress : JsStr
  companyLogo : JsStr
  clientName : String
  clientEmail : String
  clientCompany : JsStr
  clientPhone : JsStr
  clientAddress : JsStr
  invoiceDate : String
  dueDate : JsStr
  notes : JsStr
  subtotal : String
  tax : Option String
  total : String
  isHosted : JsBool
  isPasswordProtected : JsBool
  password : JsStr
  hostedUrl : JsStr
  createdAt : Nat
  updatedAt : Nat
deriving DecidableEq, Repr

/-- An invoice together with its line items, the shape returned by the read
operations of the store (type InvoiceWithLineItems). -/
structure InvoiceWithLineItems where
  invoice : Invoice
  lineItems : List LineItem
deriving DecidableEq, Repr

/-- Parsed output of insertLineItemSchema: id and invoiceId are omitted,
quantity is optional (column default 1), rate and amount are validated only
as strings. -/
structure InsertLineItem where
  description : String
  quantity : Option Int
  rate : String
  amount : String
deriving DecidableEq, Repr

/-- Runtime argument of MemStorage.addLineItem: an insert line item together
with the invoiceId the caller supplies. -/
structure InsertLineItemFull where
  invoiceId : String
  description : String
  quantity : Option Int
  rate : String
  amount : String
deriving DecidableEq, Repr

/-- Parsed output of insertInvoiceSchema: id, createdAt, updatedAt and
hostedUrl omitted; columns with defaults optional; nullable columns
tri-state. -/
structure InsertInvoice where
  invoiceNumber : String
  status : Option String
  companyName : String
  companyEmail : String
  companyPhone : JsStr
  companyWebsite : JsStr
  companyAddress : JsStr
  companyLogo : JsStr
  clientName : String
  clientEmail : String
  clientCompany : JsStr
  clientPhone : JsStr
  clientAddress : JsStr
  invoiceDate : String
  dueDate : JsStr
  notes : JsStr
  subtotal : Option String
  tax : Option String
  total : Option String
  isHosted : JsBool
  isPasswordProtected : JsBool
  password : JsStr
deriving DecidableEq, Repr

/-- Request body of invoice creation (type CreateInvoiceRequest). -/
structure CreateInvoiceRequest where
  invoice : InsertInvoice
  lineItems : List InsertLineItem
deriving DecidableEq, Repr

/-- Parsed output of updateInvoiceSchema: every insert field made optional
(absent fields are none and are not merged), plus an optional hostedUrl. -/
structure UpdateInvoice where
  invoiceNumber : Option String := none
  status : Option String := none
  companyName : Option String := none
  companyEmail : Option String := none
  companyPhone : Option JsStr := none
  companyWebsite : Option JsStr := none
  companyAddress : Option JsStr := none
  companyLogo : Option JsStr := none
  clientName : Option String := none
  clientEmail : Option String := none
  clientCompany : Option JsStr := none
  clientPhone : Option JsStr := none
  clientAddress : Option JsStr := none
  invoiceDate : Option String := none
  dueDate : Option JsStr := none
  notes : Option JsStr := none
  subtotal : Option String := none
  tax : Option String := none
  total : Option String := none
  isHosted : Option JsBool := none
  isPasswordProtected : Option JsBool := none
  password : Option JsStr := none
  hostedUrl : Option String := none
deriving DecidableEq, Repr

/-- A Partial of LineItem, the patch type of MemStorage.updateLineItem. -/
structure LineItemPatch where
  id : Option String := none
  invoiceId : Option String := none
  description : Option String := none
  quantity : Option Int := none
  rate : Option String := none
  amount : Option String := none
deriving DecidableEq, Repr

/-- A JavaScript Map, modelled as an association list in insertion order:
set updates in place or appends, get finds the first matching key. -/
abbrev KvMap (α : Type) := List (String × α)

/-- Map.get. -/
def mapGet {α : Type} (m : KvMap α) (k : String) : Option α :=
  (m.find? (fun p => p.1 == k)).map Prod.snd

/-- Map.set: update in place when the key is present, append otherwise. -/
def mapSet {α : Type} (m : KvMap α) (k : String) (v : α) : KvMap α :=
  if m.any (fun p => p.1 == k) then m.map (fun p => if p.1 == k then (k, v) else p)
  else m ++ [(k, v)]

/-- Map.delete: remove the key, reporting whether it was present. -/
def mapDelete {α : Type} (m : KvMap α) (k : String) : KvMap α × Bool :=
  (m.filter (fun p => !(p.1 == k)), m.any (fun p => p.1 == k))

/-- The state of MemStorage: the two maps plus a counter that stands in for
randomUUID, so that the n-th generated identifier is uuid-n. -/
structure MemStorage where
  invoices : KvMap Invoice
  lineItems : KvMap LineItem
  nextId : Nat
deriving DecidableEq, Repr

/-- The n-th generated identifier, standing in for randomUUID. -/
def genId (n : Nat) : String :=
  "uuid-" ++ natStr n

/-- The demo invoice seeded by MemStorage.initializeDemoData. -/
def demoInvoice : Invoice where
  id := "demo-1"
  invoiceNumber := "INV-001"
  status := "paid"
  companyName := "Acme Corporation"
  companyEmail := "hello@acmecorp.com"
  companyPhone := .str ("+1 (555) 123-4567")
  companyWebsite := .str ("www.acmecorp.com")
  companyAddress := .str ("123 Business St, Suite 100\nNew York, NY 10001")
  companyLogo := .null
  clientName := "John Smith"
  clientEmail := "john@example.com"
  clientCompany := .str ("Client Company Inc")
  clientPhone := .str ("+1 (555) 987-6543")
  clientAddress := .str ("456 Client Ave\nLos Angeles, CA 90210")
  invoiceDate := "2023-12-15"
  dueDate := .str ("2023-12-30")
  notes := .str ("Thank you for your business!")
  subtotal := "350.00"
  tax := some ("0.00")
  total := "350.00"
  isHosted := .val false
  isPasswordProtected := .val false
  password := .null
  hostedUrl := .null
  createdAt := 0
  updatedAt := 0

/-- The first demo line item seeded by initializeDemoData. -/
def demoLine1 : LineItem where
  id := "line-1"
  invoiceId := "demo-1"
  description := "Web Design Services"
  quantity := 1
  rate := "100.00"
  amount := "100.00"

/-- The second demo line item seeded by initializeDemoData. -/
def demoLine2 : LineItem where
  id := "line-2"
  invoiceId := "demo-1"
  description := "Logo Design"
  quantity := 1
  rate := "250.00"
  amount := "250.00"

/-- A freshly constructed MemStorage after its constructor ran
initializeDemoData. -/
def demoState : MemStorage where
  invoices := mapSet [] ("demo-1") demoInvoice
  lineItems := mapSet (mapSet [] ("line-1") demoLine1) ("line-2") demoLine2
  nextId := 0

/-- JavaScript x or 1 applied to an optional quantity: undefined and the
falsy 0 both default to 1. -/
def qtyOrOne : Option Int → Int
  | none => 1
  | some n => if n == 0 then 1 else n

/-- JavaScript status or draft: absent and the falsy empty string default
to the draft status. -/
def statusOrDraft : Option String → String
  | none => "draft"
  | some s => if s == "" then "draft" else s

/-- parseFloat(rate) times (quantity or 1), the amount computation shared by
createInvoice and addLineItem; none is NaN. -/
def amountNum (rate : String) (q : Option Int) : Option Dec :=
  (parseFloat rate).map (fun d => d.mulInt (qtyOrOne q))

/-- One step of the reduce in createInvoice: add the item's computed amount
to the accumulator; NaN propagates. -/
def subtotalStep (acc : Option Dec) (it : InsertLineItem) : Option Dec :=
  match acc, amountNum it.rate it.quantity with
  | some a, some b => some (a.add b)
  | _, _ => none

/-- The reduce in createInvoice summing parseFloat(rate) times quantity over
the requested line items; NaN propagates. -/
def subtotalNum (items : List InsertLineItem) : Option Dec :=
  items.foldl subtotalStep (some ⟨0, 0⟩)

/-- Fallback public domain used for hostedUrl when the invoice is hosted
(the REPLIT_DOMAINS environment fallback in the source). -/
def baseDomain : String := "localhost:5000"

/-- MemStorage.getLineItemsByInvoiceId: all stored line items whose
invoiceId matches, in insertion order. -/
def getLineItemsByInvoiceId (s : MemStorage) (invoiceId : String) : List LineItem :=
  (s.lineItems.map Prod.snd).filter (fun it => it.invoiceId == invoiceId)

/-- MemStorage.getInvoice: the invoice joined with its line items. -/
def getInvoice (s : MemStorage) (id : String) : Option InvoiceWithLineItems :=
  (mapGet s.invoices id).map (fun inv => ⟨inv, getLineItemsByInvoiceId s id⟩)

/-- Insertion step of the sort by descending createdAt. -/
def insertDescByCreated (x : InvoiceWithLineItems) :
    List InvoiceWithLineItems → List InvoiceWithLineItems
  | [] => [x]
  | y :: ys =>
    if y.invoice.createdAt < x.invoice.createdAt then x :: y :: ys
    else y :: insertDescByCreated x ys

/-- Stable sort by descending createdAt, as getAllInvoices sorts. -/
def sortDescByCreated (l : List InvoiceWithLineItems) : List InvoiceWithLineItems :=
  l.foldr insertDescByCreated []

/-- MemStorage.getAllInvoices: every invoice joined with its line items,
newest created first. -/
def getAllInvoices (s : MemStorage) : List InvoiceWithLineItems :=
  sortDescByCreated (s.invoices.map (fun p => ⟨p.2, getLineItemsByInvoiceId s p.2.id⟩))

/-- The line items created inside createInvoice, one generated id each, with
quantity defaulted through JavaScript truthiness and amount recomputed from
the item's own rate and quantity (the amount the caller supplied is
discarded). -/
def mkLineItems (invId : String) (firstId : Nat) : List InsertLineItem → List LineItem
  | [] => []
  | it :: rest =>
    { id := genId firstId
      invoiceId := invId
      description := it.description
      quantity := qtyOrOne it.quantity
      rate := it.rate
      amount := jsToFixed2 (amountNum it.rate it.quantity) } :: mkLineItems invId (firstId + 1) rest

/-- MemStorage.createInvoice: computes the subtotal by the reduce over the
requested items, builds the invoice with subtotal and total both set to that
sum (no tax is added; tax is copied from the request), stores it, then
creates and stores the line items.  now stands for new Date(). -/
def createInvoice (s : MemStorage) (r : CreateInvoiceRequest) (now : Nat) :
    InvoiceWithLineItems × MemStorage :=
  let id := genId s.nextId
  let sub := subtotalNum r.lineItems
  let inv : Invoice :=
    { id := id
      invoiceNumber := r.invoice.invoiceNumber
      status := statusOrDraft r.invoice.status
      companyName := r.invoice.companyName
      companyEmail := r.invoice.companyEmail
      companyPhone := r.invoice.companyPhone
      companyWebsite := r.invoice.companyWebsite
      companyAddress := r.invoice.companyAddress
      companyLogo := r.invoice.companyLogo
      clientName := r.invoice.clientName
      clientEmail := r.invoice.clientEmail
      clientCompany := r.invoice.clientCompany
      clientPhone := r.invoice.clientPhone
      clientAddress := r.invoice.clientAddress
      invoiceDate := r.invoice.invoiceDate
      dueDate := r.invoice.dueDate
      notes := r.invoice.notes
      subtotal := jsToFixed2 sub
      tax := r.invoice.tax
      total := jsToFixed2 sub
      isHosted := r.invoice.isHosted
      isPasswordProtected := r.invoice.isPasswordProtected
      password := r.invoice.password
      hostedUrl :=
        if jsTruthy r.invoice.isHosted then .str (baseDomain ++ "/invoice/" ++ id) else .null
      createdAt := now
      updatedAt := now }
  let items := mkLineItems id (s.nextId + 1) r.lineItems
  (⟨inv, items⟩,
    { invoices := mapSet s.invoices id inv
      lineItems := items.foldl (fun m it => mapSet m it.id it) s.lineItems
      nextId := s.nextId + 1 + r.lineItems.length })

/-- Merge of a present patch field over an optional stored field. -/
def mergeOpt {α : Type} : Option α → Option α → Option α
  | none, b => b
  | some a, _ => some a

/-- The object spread of updateInvoice: patch fields over the stored invoice,
id and createdAt untouched, updatedAt restamped. -/
def mergeInvoice (inv : Invoice) (u : UpdateInvoice) (now : Nat) : Invoice :=
  { id := inv.id
    invoiceNumber := u.invoiceNumber.getD inv.invoiceNumber
    status := u.status.getD inv.status
    companyName := u.companyName.getD inv.companyName
    companyEmail := u.companyEmail.getD inv.companyEmail
    companyPhone := u.companyPhone.getD inv.companyPhone
    companyWebsite := u.companyWebsite.getD inv.companyWebsite
    companyAddress := u.companyAddress.getD inv.companyAddress
    companyLogo := u.companyLogo.getD inv.companyLogo
    clientName := u.clientName.getD inv.clientName
    clientEmail := u.clientEmail.getD inv.clientEmail
    clientCompany := u.clientCompany.getD inv.clientCompany
    clientPhone := u.clientPhone.getD inv.clientPhone
    clientAddress := u.clientAddress.getD inv.clientAddress
    invoiceDate := u.invoiceDate.getD inv.invoiceDate
    dueDate := u.dueDate.getD inv.dueDate
    notes := u.notes.getD inv.notes
    subtotal := u.subtotal.getD inv.subtotal
    tax := mergeOpt u.tax inv.tax
    total := u.total.getD inv.total
    isHosted := u.isHosted.getD inv.isHosted
    isPasswordProtected := u.isPasswordProtected.getD inv.isPasswordProtected
    password := u.password.getD inv.password
    hostedUrl := (u.hostedUrl.map JsStr.str).getD inv.hostedUrl
    createdAt := inv.createdAt
    updatedAt := now }

/-- MemStorage.updateInvoice: merge the patch over the stored invoice, stamp
updatedAt, store, and return the result joined with its line items; none when
the id is unknown. -/
def updateInvoice (s : MemStorage) (id : String) (u : UpdateInvoice) (now : Nat) :
    Option InvoiceWithLineItems × MemStorage :=
  match mapGet s.invoices id with
  | none => (none, s)
  | some inv =>
    let inv2 := mergeInvoice inv u now
    let s2 : MemStorage := { s with invoices := mapSet s.invoices id inv2 }
    (some ⟨inv2, getLineItemsByInvoiceId s2 id⟩, s2)

/-- MemStorage.deleteInvoice: delete every line item whose invoiceId matches
(by the item's own id), then delete the invoice, returning whether it
existed. -/
def deleteInvoice (s : MemStorage) (id : String) : Bool × MemStorage :=
  let owned := getLineItemsByInvoiceId s id
  let li2 := owned.foldl (fun m it => (mapDelete m it.id).1) s.lineItems
  let d := mapDelete s.invoices id
  (d.2, { invoices := d.1, lineItems := li2, nextId := s.nextId })

/-- MemStorage.addLineItem: store a new line item under a generated id with
quantity defaulted and amount recomputed; no check that the referenced
invoice exists. -/
def addLineItem (s : MemStorage) (li : InsertLineItemFull) : LineItem × MemStorage :=
  let it : LineItem :=
    { id := genId s.nextId
      invoiceId := li.invoiceId
      description := li.description
      quantity := qtyOrOne li.quantity
      rate := li.rate
      amount := jsToFixed2 (amountNum li.rate li.quantity) }
  (it, { s with lineItems := mapSet s.lineItems it.id it, nextId := s.nextId + 1 })

/-- JavaScript truthiness of an optional patch string: present and
non-empty. -/
def truthyStrOpt : Option String → Bool
  | some s => !(s == "")
  | none => false

/-- JavaScript truthiness of an optional patch integer: present and
non-zero. -/
def truthyIntOpt : Option Int → Bool
  | some n => !(n == 0)
  | none => false

/-- The object spread of updateLineItem: patch fields over the stored item
(including id, invoiceId and amount when the patch carries them). -/
def mergeLineItem (it : LineItem) (u : LineItemPatch) : LineItem :=
  { id := u.id.getD it.id
    invoiceId := u.invoiceId.getD it.invoiceId
    description := u.description.getD it.description
    quantity := u.quantity.getD it.quantity
    rate := u.rate.getD it.rate
    amount := u.amount.getD it.amount }

/-- MemStorage.updateLineItem: merge the patch, then recompute amount only
when the patch's rate or quantity is truthy, with each input falling back to
the stored value when its patch entry is falsy. -/
def updateLineItem (s : MemStorage) (id : String) (u : LineItemPatch) :
    Option LineItem × MemStorage :=
  match mapGet s.lineItems id with
  | none => (none, s)
  | some it =>
    let merged := mergeLineItem it u
    let final :=
      if truthyStrOpt u.rate || truthyIntOpt u.quantity then
        let rate := if truthyStrOpt u.rate then u.rate.getD it.rate else it.rate
        let qty := if truthyIntOpt u.quantity then u.quantity.getD it.quantity else it.quantity
        { merged with amount := jsToFixed2 ((parseFloat rate).map (fun d => d.mulInt qty)) }
      else merged
    (some final, { s with lineItems := mapSet s.lineItems id final })

/-- MemStorage.deleteLineItem. -/
def deleteLineItem (s : MemStorage) (id : String) : Bool × MemStorage :=
  let d := mapDelete s.lineItems id
  (d.2, { s with lineItems := d.1 })

/-- MemStorage.getInvoiceByNumber: first stored invoice with the given
number, joined with its line items. -/
def getInvoiceByNumber (s : MemStorage) (numberStr : String) : Option InvoiceWithLineItems :=
  ((s.invoices.map Prod.snd).find? (fun inv => inv.invoiceNumber == numberStr)).map
    (fun inv => ⟨inv, getLineItemsByInvoiceId s inv.id⟩)

/-- Outcome of the public invoice view route GET /invoice/:id. -/
inductive ViewResult where
  | notFound : ViewResult
  | passwordGate : ViewResult
  | rendered : ViewResult
deriving DecidableEq, Repr

/-- The query string password as a JavaScript value: undefined when no
password parameter was submitted. -/
def queryVal : Option String → JsStr
  | none => .undef
  | some s => .str s

/-- The public view route of server/routes.ts: not found when the id is
unknown; the password form when the invoice's isPasswordProtected is truthy
and the submitted query password is not strictly equal to the stored
password; the rendered invoice otherwise. -/
def publicView (s : MemStorage) (id : String) (qpassword : Option String) : ViewResult :=
  match mapGet s.invoices id with
  | none => .notFound
  | some inv =>
    if jsTruthy inv.isPasswordProtected && !(jsStrEq (queryVal qpassword) inv.password) then
      .passwordGate
    else .rendered

/-- Request body of the send email route before validation. -/
structure SendEmailBody where
  toAddr : String
  subject : Option String
  message : Option String
deriving DecidableEq, Repr

/-- Simplified model of the zod email format test: an at sign somewhere
strictly inside the address and no spaces.  The claims do not depend on the
exact accepted language, only on parse failure being reported before any
lookup. -/
def isEmailLike (s : String) : Bool :=
  s.toList.any (fun c => c == '@') && !(s.toList.any (fun c => c == ' '))
    && (match s.toList with
        | c :: _ => !(c == '@')
        | [] => false)
    && (match s.toList.reverse with
        | c :: _ => !(c == '@')
        | [] => false)

/-- sendEmailSchema: to must be an email, subject must be a non-empty
string. -/
def validSendEmail (b : SendEmailBody) : Bool :=
  isEmailLike b.toAddr &&
    (match b.subject with
     | some t => !(t == "")
     | none => false)

/-- Outcome of the send email route POST /api/invoices/:id/send-email. -/
inductive EmailResult where
  | invalid : EmailResult
  | notFound : EmailResult
  | mailFailed : EmailResult
  | sent : EmailResult
deriving DecidableEq, Repr

/-- The send email route of server/routes.ts: parse the body first, then
look the invoice up (404 when absent), then dispatch the mail — modelled by
the mailOk flag for the external transporter — and only on successful
dispatch patch the invoice's status to sent; a dispatch failure reaches the
catch block with the store untouched. -/
def sendEmailRoute (s : MemStorage) (id : String) (b : SendEmailBody) (mailOk : Bool)
    (now : Nat) : EmailResult × MemStorage :=
  if !(validSendEmail b) then (.invalid, s)
  else
    match getInvoice s id with
    | none => (.notFound, s)
    | some _ =>
      if mailOk then (.sent, (updateInvoice s id { status := some ("sent") } now).2)
      else (.mailFailed, s)

/-- Cents denoted by a stored money string, through the embedded parseFloat;
none when the string does not parse (NaN).  Used to state the spec's
invariants about decimal strings. -/
def decCents (s : String) : Option ℤ :=
  (parseFloat s).map centsOfDec

/-- One step of the cent summation: add the string's cent value; a parse
failure propagates. -/
def centsStep (acc : Option ℤ) (a : String) : Option ℤ :=
  match acc, decCents a with
  | some x, some y => some (x + y)
  | _, _ => none

/-- Sum in cents of a list of money strings; none when any fails to parse. -/
def sumCentsList (l : List String) : Option ℤ :=
  l.foldl centsStep (some 0)

/-- Modelled from the spec: the invariant of section 3, total equals subtotal
plus tax and subtotal equals the sum of the amount fields of the attached
line items, read as decimal values of the stored strings. -/
def invoiceInvariant (w : InvoiceWithLineItems) : Bool :=
  (decCents w.invoice.subtotal == sumCentsList (w.lineItems.map LineItem.amount)) &&
    (match decCents w.invoice.total, decCents w.invoice.subtotal,
        w.invoice.tax.bind decCents with
     | some t, some sb, some tx => t == sb + tx
     | _, _, _ => false)

/-- A decimal is exactly a whole number of cents: one hundred times its
mantissa carries no remainder at its scale.  Equivalent to toRat being n over
one hundred. -/
def ExactCents (d : Dec) (n : ℤ) : Prop :=
  100 * d.m = n * 10 ^ d.e

/-- The computed amounts of a request's line items are exactly the given
cent counts, item by item. -/
def ExactItems : List InsertLineItem → List ℤ → Prop
  | [], [] => True
  | it :: its, n :: ns =>
    (∃ d : Dec, amountNum it.rate it.quantity = some d ∧ ExactCents d n) ∧ ExactItems its ns
  | _, _ => False

/-- Modelled from the spec: the mathematical sum of rate times quantity over
the requested line items, for comparison with the computed subtotal. -/
def specSubtotal (items : List InsertLineItem) : ℚ :=
  (items.map (fun it => ((parseFloat it.rate).getD ⟨0, 0⟩).toRat * (qtyOrOne it.quantity : ℚ))).sum

/-- A money string ends in a decimal point followed by exactly two digits. -/
def hasTwoDecimals (s : String) : Bool :=
  match s.toList.reverse with
  | a :: b :: c :: _ => a.isDigit && b.isDigit && (c == '.')
  | _ => false

/-- Every stored line item's id field agrees with its map key; true of every
state reachable without patching an id through updateLineItem. -/
def KeysConsistent (s : MemStorage) : Prop :=
  ∀ p ∈ s.lineItems, p.2.id = p.1

/-- A minimal well-formed insert invoice used by concrete instances. -/
def sampleInvoice : InsertInvoice where
  invoiceNumber := "INV-100"
  status := none
  companyName := "Sample Co"
  companyEmail := "billing@sample.co"
  companyPhone := .null
  companyWebsite := .null
  companyAddress := .null
  companyLogo := .null
  clientName := "A Client"
  clientEmail := "client@example.com"
  clientCompany := .null
  clientPhone := .null
  clientAddress := .null
  invoiceDate := "2024-01-01"
  dueDate := .null
  notes := .null
  subtotal := none
  tax := none
  total := none
  isHosted := .val false
  isPasswordProtected := .val false
  password := .null

/-- A create request with zero tax and one exact-cent line item. -/
def c1req : CreateInvoiceRequest where
  invoice := { sampleInvoice with tax := some ("0.00") }
  lineItems := [⟨"Web work", some 1, "100.00", "0.00"⟩]

/-- A create request carrying a non-zero tax string and one item of quantity
three at rate 19.99. -/
def c2req : CreateInvoiceRequest where
  invoice := { sampleInvoice with tax := some ("5.00") }
  lineItems := [⟨"Dev work", some 3, "19.99", "0.00"⟩]

/-- A create request whose single line item rate does not parse as a
decimal. -/
def c3req : CreateInvoiceRequest where
  invoice := sampleInvoice
  lineItems := [⟨"Bad rate", some 1, "abc", "10.00"⟩]

/-- A create request marked password protected whose password field is
absent (undefined). -/
def c7req : CreateInvoiceRequest where
  invoice := { sampleInvoice with isPasswordProtected := .val true, password := .undef }
  lineItems := []

/-- The stored result of patching the first demo line item's rate to
50.00. -/
def c4item : LineItem where
  id := "line-1"
  invoiceId := "demo-1"
  description := "Web Design Services"
  quantity := 1
  rate := "50.00"
  amount := "50.00"

/-- A digit below ten parses back from its character. -/
theorem digitVal_digitChar {d : Nat} (h : d < 10) : digitVal (digitChar d) = some d := by
  interval_cases d <;> decide

/-- Appending a digit multiplies the value by ten and adds it. -/
theorem digitsToNat_append (ds : List Nat) (d : Nat) :
    digitsToNat (ds ++ [d]) = digitsToNat ds * 10 + d := by
  unfold digitsToNat
  rw [List.foldl_append]
  rfl

/-- With enough fuel, the digit list denotes the number it came from. -/
theorem digitsToNat_natDigitsAux :
    ∀ fuel n, n < fuel → digitsToNat (natDigitsAux fuel n) = n := by
  intro fuel
  induction fuel with
  | zero => intro n h; omega
  | succ fuel ih =>
    intro n h
    unfold natDigitsAux
    by_cases h10 : n < 10
    · simp only [h10, if_true]
      unfold digitsToNat
      simp
    · simp only [h10, if_false]
      rw [digitsToNat_append, ih (n / 10) (by omega)]
      omega

/-- The digit list of a natural number denotes it. -/
theorem digitsToNat_natDigits (n : Nat) : digitsToNat (natDigits n) = n :=
  digitsToNat_natDigitsAux (n + 1) n (by omega)

/-- With enough fuel, every produced digit is below ten. -/
theorem natDigitsAux_lt10 :
    ∀ fuel n, n < fuel → ∀ d ∈ natDigitsAux fuel n, d < 10 := by
  intro fuel
  induction fuel with
  | zero => intro n h; omega
  | succ fuel ih =>
    intro n h d hd
    unfold natDigitsAux at hd
    by_cases h10 : n < 10
    · simp only [h10, if_true, List.mem_singleton] at hd
      omega
    · simp only [h10, if_false, List.mem_append, List.mem_singleton] at hd
      rcases hd with hd | hd
      · exact ih (n / 10) (by omega) d hd
      · omega

/-- Every digit of a natural number is below ten. -/
theorem natDigits_lt10 (n : Nat) : ∀ d ∈ natDigits n, d < 10 :=
  natDigitsAux_lt10 (n + 1) n (by omega)

/-- With positive fuel the digit list is nonempty. -/
theorem natDigitsAux_ne_nil (fuel n : Nat) (h : n < fuel) : natDigitsAux fuel n ≠ [] := by
  cases fuel with
  | zero => omega
  | succ fuel =>
    unfold natDigitsAux
    by_cases h10 : n < 10 <;> simp [h10]

/-- The digit list of a natural number is nonempty. -/
theorem natDigits_ne_nil (n : Nat) : natDigits n ≠ [] :=
  natDigitsAux_ne_nil (n + 1) n (by omega)

/-- A number below ten has a single digit. -/
theorem natDigitsAux_small {fuel n : Nat} (h : n < 10) (hf : 0 < fuel) :
    natDigitsAux fuel n = [n] := by
  cases fuel with
  | zero => omega
  | succ fuel => simp [natDigitsAux, h]

/-- Reading digit characters stops exactly at the first non-digit. -/
theorem takeDigits_exact (ds : List Nat) (h : ∀ d ∈ ds, d < 10) (r : List Char)
    (hr : ∀ c rr, r = c :: rr → digitVal c = none) :
    takeDigits (ds.map digitChar ++ r) = (ds, r) := by
  induction ds with
  | nil =>
    cases r with
    | nil => rfl
    | cons c rr => simp [takeDigits, hr c rr rfl]
  | cons d ds ih =>
    have hd : d < 10 := h d (by simp)
    simp only [List.map_cons, List.cons_append, takeDigits, digitVal_digitChar hd,
      List.append_eq]
    rw [ih (fun x hx => h x (by simp [hx]))]

/-- The padded fraction digits are all below ten. -/
theorem pad2Digits_lt10 (f : Nat) : ∀ d ∈ pad2Digits f, d < 10 := by
  unfold pad2Digits
  by_cases h10 : f < 10
  · intro d hd
    simp only [h10, if_true, List.mem_cons, List.mem_singleton,
      List.not_mem_nil, or_false] at hd
    rcases hd with hd | hd <;> omega
  · simp only [h10, if_false]
    exact natDigits_lt10 f

/-- The padded fraction digits denote the cent remainder. -/
theorem pad2Digits_toNat (f : Nat) : digitsToNat (pad2Digits f) = f := by
  unfold pad2Digits
  by_cases h10 : f < 10
  · simp only [h10, if_true]
    unfold digitsToNat
    simp
  · simp only [h10, if_false]
    exact digitsToNat_natDigits f

/-- Below one hundred the padding yields exactly two digits. -/
theorem pad2Digits_length {f : Nat} (h : f < 100) : (pad2Digits f).length = 2 := by
  unfold pad2Digits
  by_cases h10 : f < 10
  · simp [h10]
  · simp only [h10, if_false]
    unfold natDigits natDigitsAux
    simp only [h10, if_false]
    rw [natDigitsAux_small (by omega) (by omega)]
    rfl

/-- A leading non-sign character leaves the input untouched. -/
theorem takeSign_not_sign {c : Char} {cs : List Char} (h1 : (c == '-') = false)
    (h2 : (c == '+') = false) : takeSign (c :: cs) = (false, c :: cs) := by
  simp [takeSign, h1, h2]

/-- A leading minus is consumed as the sign. -/
theorem takeSign_neg (cs : List Char) : takeSign ('-' :: cs) = (true, cs) := by
  simp [takeSign]

/-- Parsing the unsigned rendered cent characters yields exactly the natAbs
mantissa at scale two. -/
theorem parseAfterSign_render (neg : Bool) (a : Nat) :
    parseAfterSign neg (natChars (a / 100) ++ '.' :: pad2Chars (a % 100))
      = some ⟨if neg then -(a : ℤ) else (a : ℤ), 2⟩ := by
  have hmod : a % 100 < 100 := Nat.mod_lt a (by omega)
  have htake :
      takeDigits (natChars (a / 100) ++ '.' :: pad2Chars (a % 100))
        = (natDigits (a / 100), '.' :: pad2Chars (a % 100)) := by
    apply takeDigits_exact _ (natDigits_lt10 _)
    intro c rr hc
    cases hc
    decide
  have hfrac :
      takeFraction ('.' :: pad2Chars (a % 100)) = (pad2Digits (a % 100), []) := by
    unfold takeFraction
    simp only [beq_self_eq_true, if_true]
    rw [show pad2Chars (a % 100) = (pad2Digits (a % 100)).map digitChar ++ [] by
      simp [pad2Chars]]
    apply takeDigits_exact _ (pad2Digits_lt10 _)
    intro c rr hc
    simp at hc
  have hne : (natDigits (a / 100)).isEmpty = false := by
    cases hnd : natDigits (a / 100) with
    | nil => exact absurd hnd (natDigits_ne_nil _)
    | cons d ds => rfl
  have hm : mantOf (natDigits (a / 100)) (pad2Digits (a % 100)) = (a : ℤ) := by
    unfold mantOf
    rw [digitsToNat_natDigits, pad2Digits_toNat, pad2Digits_length hmod]
    push_cast
    omega
  unfold parseAfterSign
  rw [htake, hfrac]
  simp only [hne, Bool.false_and]
  rw [if_neg (by simp)]
  rw [hm, pad2Digits_length hmod]

/-- Rendered cents parse back exactly: parseFloat of renderCents n is the
decimal n over one hundred. -/
theorem parseFloat_renderCents (n : ℤ) : parseFloat (renderCents n) = some ⟨n, 2⟩ := by
  have hlist : (renderCents n).toList = renderCentsChars n := rfl
  unfold parseFloat
  rw [hlist]
  unfold renderCentsChars
  by_cases hn : n < 0
  · rw [if_pos hn, List.singleton_append, List.cons_append, takeSign_neg]
    show parseAfterSign true (natChars (n.natAbs / 100) ++ '.' :: pad2Chars (n.natAbs % 100))
      = some ⟨n, 2⟩
    rw [parseAfterSign_render]
    simp [show ((n.natAbs : ℤ)) = -n by omega]
  · rw [if_neg hn, List.nil_append]
    obtain ⟨d, ds, hds⟩ : ∃ d ds, natDigits (n.natAbs / 100) = d :: ds := by
      cases hnd : natDigits (n.natAbs / 100) with
      | nil => exact absurd hnd (natDigits_ne_nil _)
      | cons d ds => exact ⟨d, ds, rfl⟩
    have hd10 : d < 10 := natDigits_lt10 _ d (by rw [hds]; simp)
    have hdv : digitVal (digitChar d) = some d := digitVal_digitChar hd10
    have hdot : digitVal '-' = none := by decide
    have hplus : digitVal '+' = none := by decide
    have hnm : (digitChar d == '-') = false := by
      apply beq_eq_false_iff_ne.mpr
      intro he
      rw [he, hdot] at hdv
      exact Option.noConfusion hdv
    have hnp : (digitChar d == '+') = false := by
      apply beq_eq_false_iff_ne.mpr
      intro he
      rw [he, hplus] at hdv
      exact Option.noConfusion hdv
    rw [show natChars (n.natAbs / 100) ++ '.' :: pad2Chars (n.natAbs % 100)
          = digitChar d :: (ds.map digitChar ++ '.' :: pad2Chars (n.natAbs % 100)) by
        simp [natChars, hds]]
    rw [takeSign_not_sign hnm hnp]
    show parseAfterSign false
        (digitChar d :: (ds.map digitChar ++ '.' :: pad2Chars (n.natAbs % 100)))
      = some ⟨n, 2⟩
    rw [show digitChar d :: (ds.map digitChar ++ '.' :: pad2Chars (n.natAbs % 100))
          = natChars (n.natAbs / 100) ++ '.' :: pad2Chars (n.natAbs % 100) by
        simp [natChars, hds]]
    rw [parseAfterSign_render]
    simp [show ((n.natAbs : ℤ)) = n by omega]

/-- The cent value of the exact decimal n over one hundred is n. -/
theorem centsOfDec_n2 (n : ℤ) : centsOfDec ⟨n, 2⟩ = n := by
  unfold centsOfDec
  norm_num
  omega

/-- Reading a rendered cent string back through parseFloat recovers the cent
count. -/
theorem decCents_renderCents (n : ℤ) : decCents (renderCents n) = some n := by
  unfold decCents
  rw [parseFloat_renderCents]
  simp [centsOfDec_n2]

/-- The zero accumulator of the subtotal reduce is exactly zero cents. -/
theorem exactCents_zero : ExactCents ⟨0, 0⟩ 0 := by
  unfold ExactCents
  norm_num

/-- Exact cent counts add through Dec.add. -/
theorem ExactCents.add {a b : Dec} {x y : ℤ} (ha : ExactCents a x) (hb : ExactCents b y) :
    ExactCents (a.add b) (x + y) := by
  unfold ExactCents Dec.add at *
  simp only
  have h1 : (10 : ℤ) ^ a.e * 10 ^ (max a.e b.e - a.e) = 10 ^ max a.e b.e := by
    rw [← pow_add]
    congr 1
    omega
  have h2 : (10 : ℤ) ^ b.e * 10 ^ (max a.e b.e - b.e) = 10 ^ max a.e b.e := by
    rw [← pow_add]
    congr 1
    omega
  calc 100 * (a.m * 10 ^ (max a.e b.e - a.e) + b.m * 10 ^ (max a.e b.e - b.e))
      = (100 * a.m) * 10 ^ (max a.e b.e - a.e) + (100 * b.m) * 10 ^ (max a.e b.e - b.e) := by
        ring
    _ = (x * 10 ^ a.e) * 10 ^ (max a.e b.e - a.e) + (y * 10 ^ b.e) * 10 ^ (max a.e b.e - b.e) := by
        rw [ha, hb]
    _ = x * (10 ^ a.e * 10 ^ (max a.e b.e - a.e)) + y * (10 ^ b.e * 10 ^ (max a.e b.e - b.e)) := by
        ring
    _ = (x + y) * 10 ^ max a.e b.e := by
        rw [h1, h2]
        ring

/-- Rounding an exact decimal to cents recovers its cent count. -/
theorem centsOfDec_exact {d : Dec} {n : ℤ} (h : ExactCents d n) : centsOfDec d = n := by
  unfold centsOfDec
  unfold ExactCents at h
  have hpow : (0 : ℤ) < 10 ^ d.e := pow_pos (by norm_num) _
  have hnum : 200 * d.m + 10 ^ d.e = 10 ^ d.e * (2 * n + 1) := by
    linear_combination 2 * h
  have hden : (2 : ℤ) * 10 ^ d.e = 10 ^ d.e * 2 := by
    ring
  rw [hnum, hden, Int.mul_ediv_mul_of_pos _ _ hpow]
  omega

/-- toFixed(2) of an exact decimal renders its cent count. -/
theorem toFixed2_exact {d : Dec} {n : ℤ} (h : ExactCents d n) : toFixed2 d = renderCents n := by
  unfold toFixed2
  rw [centsOfDec_exact h]

/-- The subtotal reduce over exact items accumulates the exact cent sum. -/
theorem subtotalNum_fold_exact :
    ∀ (items : List InsertLineItem) (ns : List ℤ), ExactItems items ns →
      ∀ (acc : Dec) (x : ℤ), ExactCents acc x →
        ∃ D : Dec, items.foldl subtotalStep (some acc) = some D ∧ ExactCents D (x + ns.sum) := by
  intro items
  induction items with
  | nil =>
    intro ns hex acc x hacc
    cases ns with
    | nil => exact ⟨acc, rfl, by simpa using hacc⟩
    | cons n ns => exact absurd hex (by simp [ExactItems])
  | cons it items ih =>
    intro ns hex acc x hacc
    cases ns with
    | nil => exact absurd hex (by simp [ExactItems])
    | cons n ns =>
      simp only [ExactItems] at hex
      obtain ⟨⟨d, hd, hdn⟩, hrest⟩ := hex
      simp only [List.foldl_cons]
      rw [show subtotalStep (some acc) it = some (acc.add d) by simp [subtotalStep, hd]]
      obtain ⟨D, hD, hDx⟩ := ih ns hrest (acc.add d) (x + n) (hacc.add hdn)
      refine ⟨D, hD, ?_⟩
      rw [List.sum_cons, ← add_assoc]
      exact hDx

/-- The computed subtotal of exact items is defined and exactly their cent
sum. -/
theorem subtotalNum_exact {items : List InsertLineItem} {ns : List ℤ}
    (h : ExactItems items ns) :
    ∃ D : Dec, subtotalNum items = some D ∧ ExactCents D ns.sum := by
  obtain ⟨D, hD, hx⟩ := subtotalNum_fold_exact items ns h ⟨0, 0⟩ 0 exactCents_zero
  exact ⟨D, hD, by simpa using hx⟩

/-- The created line items of exact request items carry exactly the rendered
cent amounts. -/
theorem mkLineItems_amounts :
    ∀ (items : List InsertLineItem) (ns : List ℤ), ExactItems items ns →
      ∀ (invId : String) (k : Nat),
        (mkLineItems invId k items).map LineItem.amount = ns.map renderCents := by
  intro items
  induction items with
  | nil =>
    intro ns hex invId k
    cases ns with
    | nil => rfl
    | cons n ns => exact absurd hex (by simp [ExactItems])
  | cons it items ih =>
    intro ns hex invId k
    cases ns with
    | nil => exact absurd hex (by simp [ExactItems])
    | cons n ns =>
      simp only [ExactItems] at hex
      obtain ⟨⟨d, hd, hdn⟩, hrest⟩ := hex
      simp only [mkLineItems, List.map_cons]
      rw [ih ns hrest invId (k + 1)]
      congr 1
      rw [hd]
      exact toFixed2_exact hdn

/-- Folding the cent summation over rendered cent strings sums the counts. -/
theorem sumCents_fold_renders :
    ∀ (ns : List ℤ) (x : ℤ), (ns.map renderCents).foldl centsStep (some x) = some (x + ns.sum) := by
  intro ns
  induction ns with
  | nil => intro x; simp
  | cons n ns ih =>
    intro x
    simp only [List.map_cons, List.foldl_cons]
    rw [show centsStep (some x) (renderCents n) = some (x + n) by
      simp [centsStep, decCents_renderCents]]
    rw [ih (x + n), List.sum_cons]
    congr 1
    ring

/-- Summing rendered cent strings recovers the cent sum. -/
theorem sumCentsList_renders (ns : List ℤ) : sumCentsList (ns.map renderCents) = some ns.sum := by
  unfold sumCentsList
  rw [sumCents_fold_renders]
  simp

/-- Reduce a Bool-conditioned if through a true hypothesis. -/
theorem if_beq_true {α : Type} {c : Bool} {a b : α} (h : c = true) :
    (if c then a else b) = a := by
  subst h
  rfl

/-- Reduce a Bool-conditioned if through a false hypothesis. -/
theorem if_beq_false {α : Type} {c : Bool} {a b : α} (h : c = false) :
    (if c then a else b) = b := by
  subst h
  rfl

/-- Lookup of a cons: the head when its key matches, the tail lookup
otherwise. -/
theorem mapGet_cons {α : Type} (p : String × α) (m : KvMap α) (k : String) :
    mapGet (p :: m) k = if (p.1 == k) then some p.2 else mapGet m k := by
  unfold mapGet
  rw [List.find?_cons]
  rcases Bool.eq_false_or_eq_true (p.1 == k) with hpk | hpk <;> simp [hpk]

/-- A key occurs in the map exactly when its lookup succeeds. -/
theorem any_key_eq_isSome {α : Type} (m : KvMap α) (k : String) :
    m.any (fun p => p.1 == k) = (mapGet m k).isSome := by
  induction m with
  | nil => rfl
  | cons p m ih =>
    rcases Bool.eq_false_or_eq_true (p.1 == k) with hpk | hpk
    · rw [List.any_cons, mapGet_cons, if_beq_true hpk, hpk]
      rfl
    · rw [List.any_cons, mapGet_cons, if_beq_false hpk, hpk, Bool.false_or]
      exact ih

/-- In-place update puts the new value at the key when the key occurs. -/
theorem mapGet_updateInPlace {α : Type} (m : KvMap α) (k : String) (v : α)
    (hmem : m.any (fun p => p.1 == k) = true) :
    mapGet (m.map (fun p => if p.1 == k then (k, v) else p)) k = some v := by
  induction m with
  | nil => simp at hmem
  | cons p m ih =>
    simp only [List.any_cons, Bool.or_eq_true] at hmem
    rcases Bool.eq_false_or_eq_true (p.1 == k) with hpk | hpk
    · simp only [List.map_cons, if_beq_true hpk, mapGet_cons, beq_self_eq_true, if_true]
    · have hm : m.any (fun p => p.1 == k) = true := by
        rcases hmem with h | h
        · rw [hpk] at h
          exact absurd h (by simp)
        · exact h
      simp only [List.map_cons, if_beq_false hpk, mapGet_cons]
      exact ih hm

/-- Appending a fresh binding makes the key look up to the new value. -/
theorem mapGet_append_fresh {α : Type} (m : KvMap α) (k : String) (v : α)
    (hnone : mapGet m k = none) :
    mapGet (m ++ [(k, v)]) k = some v := by
  induction m with
  | nil => simp [mapGet_cons]
  | cons p m ih =>
    rcases Bool.eq_false_or_eq_true (p.1 == k) with hpk | hpk
    · rw [mapGet_cons, if_beq_true hpk] at hnone
      exact Option.noConfusion hnone
    · rw [mapGet_cons, if_beq_false hpk] at hnone
      rw [List.cons_append, mapGet_cons, if_beq_false hpk]
      exact ih hnone

/-- Map.set stores the value at its key. -/
theorem mapGet_set_self {α : Type} (m : KvMap α) (k : String) (v : α) :
    mapGet (mapSet m k v) k = some v := by
  unfold mapSet
  rcases Bool.eq_false_or_eq_true (m.any fun p => p.1 == k) with hmem | hmem
  · rw [if_beq_true hmem]
    exact mapGet_updateInPlace m k v hmem
  · rw [if_beq_false hmem]
    apply mapGet_append_fresh
    rw [any_key_eq_isSome] at hmem
    exact Option.not_isSome_iff_eq_none.mp (by simp [hmem])

/-- In-place update leaves other keys untouched. -/
theorem mapGet_updateInPlace_ne {α : Type} (m : KvMap α) (k : String) (v : α) (k' : String)
    (h : (k == k') = false) :
    mapGet (m.map (fun p => if p.1 == k then (k, v) else p)) k' = mapGet m k' := by
  induction m with
  | nil => rfl
  | cons p m ih =>
    rcases Bool.eq_false_or_eq_true (p.1 == k) with hpk | hpk
    · have h1 : p.1 = k := by simpa using hpk
      have h2 : (p.1 == k') = false := by
        rw [h1]
        exact h
      simp only [List.map_cons, if_beq_true hpk, mapGet_cons]
      rw [if_beq_false h, if_beq_false h2, ih]
    · simp only [List.map_cons, if_beq_false hpk, mapGet_cons]
      rw [ih]

/-- An appended fresh binding leaves other keys untouched. -/
theorem mapGet_append_ne {α : Type} (m : KvMap α) (k : String) (v : α) (k' : String)
    (h : (k == k') = false) :
    mapGet (m ++ [(k, v)]) k' = mapGet m k' := by
  induction m with
  | nil =>
    rw [List.nil_append, mapGet_cons]
    simp only [if_beq_false h]
  | cons p m ih =>
    rw [List.cons_append, mapGet_cons, mapGet_cons]
    rcases Bool.eq_false_or_eq_true (p.1 == k') with hpk' | hpk'
    · rw [if_beq_true hpk', if_beq_true hpk']
    · rw [if_beq_false hpk', if_beq_false hpk', ih]

/-- Map.set leaves every other key untouched. -/
theorem mapGet_set_ne {α : Type} (m : KvMap α) (k : String) (v : α) (k' : String)
    (h : k' ≠ k) :
    mapGet (mapSet m k v) k' = mapGet m k' := by
  have hb : (k == k') = false := beq_eq_false_iff_ne.mpr (Ne.symm h)
  unfold mapSet
  rcases Bool.eq_false_or_eq_true (m.any fun p => p.1 == k) with hmem | hmem
  · rw [if_beq_true hmem]
    exact mapGet_updateInPlace_ne m k v k' hb
  · rw [if_beq_false hmem]
    exact mapGet_append_ne m k v k' hb

/-- A successful lookup comes from a stored binding. -/
theorem mapGet_eq_some_mem {α : Type} {m : KvMap α} {k : String} {v : α}
    (h : mapGet m k = some v) : (k, v) ∈ m := by
  induction m with
  | nil => simp [mapGet] at h
  | cons p m ih =>
    rw [mapGet_cons] at h
    rcases Bool.eq_false_or_eq_true (p.1 == k) with hpk | hpk
    · rw [if_beq_true hpk] at h
      have h1 : p.1 = k := by simpa using hpk
      have h2 : p.2 = v := by simpa using h
      have hpv : (k, v) = p := by
        cases p with
        | mk a b =>
          simp only at h1 h2
          rw [h1, h2]
      rw [hpv]
      exact List.mem_cons_self p m
    · rw [if_beq_false hpk] at h
      exact List.mem_cons_of_mem p (ih h)

/-- Deleting a key removes it. -/
theorem mapGet_delete_self {α : Type} (m : KvMap α) (k : String) :
    mapGet (mapDelete m k).1 k = none := by
  unfold mapDelete mapGet
  simp only
  rw [List.find?_eq_none.mpr]
  · rfl
  · intro p hp
    have := List.of_mem_filter hp
    simp only [Bool.not_eq_true'] at this
    simp [this]

/-- Deletion reports whether the key was stored. -/
theorem mapDelete_existed {α : Type} (m : KvMap α) (k : String) :
    (mapDelete m k).2 = (mapGet m k).isSome := by
  unfold mapDelete
  exact any_key_eq_isSome m k

/-- A surviving binding after deletion was stored and has a different key. -/
theorem mapDelete_mem {α : Type} {m : KvMap α} {k : String} {p : String × α}
    (hp : p ∈ (mapDelete m k).1) : p ∈ m ∧ (p.1 == k) = false := by
  unfold mapDelete at hp
  simp only at hp
  refine ⟨List.mem_of_mem_filter hp, ?_⟩
  have := List.of_mem_filter hp
  simpa [Bool.not_eq_true'] using this

/-- Folding item-wise deletion over a list filters out all listed ids at
once. -/
theorem foldl_delete_eq_filter {α : Type} (L : List LineItem) (m : KvMap α) :
    L.foldl (fun m it => (mapDelete m it.id).1) m
      = m.filter (fun p => !(L.any (fun it => it.id == p.1))) := by
  induction L generalizing m with
  | nil => simp
  | cons a L ih =>
    simp only [List.foldl_cons]
    rw [ih]
    unfold mapDelete
    simp only
    rw [List.filter_filter]
    congr 1
    funext p
    simp only [List.any_cons, Bool.not_or]
    have hc : (p.1 == a.id) = (a.id == p.1) := by
      rcases Bool.eq_false_or_eq_true (p.1 == a.id) with hx | hx
      · have heq : p.1 = a.id := by simpa using hx
        rw [hx, heq, beq_self_eq_true]
      · have hne : p.1 ≠ a.id := beq_eq_false_iff_ne.mp hx
        rw [hx, beq_eq_false_iff_ne.mpr (Ne.symm hne)]
    rw [Bool.and_comm, hc]

/-- The created line items' amounts are toFixed of each requested item's own
rate times defaulted quantity, independent of the supplied amount field. -/
theorem mkLineItems_amounts_all :
    ∀ (items : List InsertLineItem) (invId : String) (k : Nat),
      (mkLineItems invId k items).map LineItem.amount
        = items.map (fun it => jsToFixed2 (amountNum it.rate it.quantity)) := by
  intro items
  induction items with
  | nil => intro invId k; rfl
  | cons it items ih =>
    intro invId k
    simp only [mkLineItems, List.map_cons]
    rw [ih]

/-- One created line item per requested item. -/
theorem mkLineItems_length :
    ∀ (items : List InsertLineItem) (invId : String) (k : Nat),
      (mkLineItems invId k items).length = items.length := by
  intro items
  induction items with
  | nil => intro invId k; rfl
  | cons it items ih =>
    intro invId k
    simp only [mkLineItems, List.length_cons]
    rw [ih]

/-- NaN absorbs the subtotal reduce. -/
theorem subtotal_fold_none (items : List InsertLineItem) :
    items.foldl subtotalStep none = none := by
  induction items with
  | nil => rfl
  | cons it items ih => exact ih

/-- A single unparseable rate drives the whole subtotal reduce to NaN. -/
theorem subtotal_fold_bad :
    ∀ (items : List InsertLineItem), (∃ it ∈ items, parseFloat it.rate = none) →
      ∀ acc, items.foldl subtotalStep acc = none := by
  intro items
  induction items with
  | nil =>
    intro h acc
    obtain ⟨it, hmem, _⟩ := h
    exact absurd hmem (List.not_mem_nil it)
  | cons a items ih =>
    intro h acc
    obtain ⟨it, hmem, hbad⟩ := h
    rcases List.mem_cons.mp hmem with heq | htail
    · subst heq
      have hstep : subtotalStep acc it = none := by
        unfold subtotalStep amountNum
        rw [hbad]
        cases acc <;> rfl
      rw [List.foldl_cons, hstep]
      exact subtotal_fold_none items
    · rw [List.foldl_cons]
      exact ih ⟨it, htail, hbad⟩ _

/-- The subtotal of a request with an unparseable rate is NaN. -/
theorem subtotalNum_bad {items : List InsertLineItem} {it : InsertLineItem}
    (hmem : it ∈ items) (hbad : parseFloat it.rate = none) :
    subtotalNum items = none :=
  subtotal_fold_bad items ⟨it, hmem, hbad⟩ _

/-- Dec.add agrees with rational addition. -/
theorem Dec.toRat_add (a b : Dec) : (a.add b).toRat = a.toRat + b.toRat := by
  unfold Dec.toRat Dec.add
  simp only
  have ha : ((10 : ℚ)) ^ a.e ≠ 0 := by positivity
  have hb : ((10 : ℚ)) ^ b.e ≠ 0 := by positivity
  have h1 : ((10 : ℚ)) ^ a.e * 10 ^ (max a.e b.e - a.e) = 10 ^ max a.e b.e := by
    rw [← pow_add]
    congr 1
    omega
  have h2 : ((10 : ℚ)) ^ b.e * 10 ^ (max a.e b.e - b.e) = 10 ^ max a.e b.e := by
    rw [← pow_add]
    congr 1
    omega
  have hX : ((10 : ℚ)) ^ (max a.e b.e - a.e) = 10 ^ max a.e b.e / 10 ^ a.e := by
    rw [eq_div_iff ha, mul_comm]
    exact h1
  have hY : ((10 : ℚ)) ^ (max a.e b.e - b.e) = 10 ^ max a.e b.e / 10 ^ b.e := by
    rw [eq_div_iff hb, mul_comm]
    exact h2
  have hE : ((10 : ℚ)) ^ max a.e b.e ≠ 0 := by positivity
  push_cast
  rw [hX, hY]
  field_simp
  ring

/-- Dec.mulInt agrees with rational multiplication by the integer. -/
theorem Dec.toRat_mulInt (a : Dec) (k : ℤ) : (a.mulInt k).toRat = a.toRat * k := by
  unfold Dec.toRat Dec.mulInt
  push_cast
  ring

/-- For parseable items the subtotal reduce is defined and its rational value
is the accumulator's plus the mathematical sum of rate times quantity. -/
theorem subtotalNum_fold_toRat :
    ∀ (items : List InsertLineItem), (∀ it ∈ items, (parseFloat it.rate).isSome = true) →
      ∀ acc : Dec,
        ∃ D : Dec, items.foldl subtotalStep (some acc) = some D
          ∧ D.toRat = acc.toRat + specSubtotal items := by
  intro items
  induction items with
  | nil =>
    intro _ acc
    refine ⟨acc, rfl, ?_⟩
    unfold specSubtotal
    simp
  | cons it items ih =>
    intro hp acc
    obtain ⟨v, hv⟩ := Option.isSome_iff_exists.mp (hp it (by simp))
    have hstep : subtotalStep (some acc) it = some (acc.add (v.mulInt (qtyOrOne it.quantity))) := by
      unfold subtotalStep amountNum
      rw [hv]
      rfl
    obtain ⟨D, hD, hDr⟩ := ih (fun x hx => hp x (by simp [hx])) (acc.add (v.mulInt (qtyOrOne it.quantity)))
    refine ⟨D, by rw [List.foldl_cons, hstep]; exact hD, ?_⟩
    rw [hDr, Dec.toRat_add, Dec.toRat_mulInt]
    unfold specSubtotal
    simp only [List.map_cons, List.sum_cons]
    rw [hv]
    simp only [Option.getD_some]
    ring

/-- For parseable items the computed subtotal is defined with rational value
the mathematical item sum. -/
theorem subtotalNum_toRat {items : List InsertLineItem}
    (hp : ∀ it ∈ items, (parseFloat it.rate).isSome = true) :
    ∃ D : Dec, subtotalNum items = some D ∧ D.toRat = specSubtotal items := by
  obtain ⟨D, hD, hDr⟩ := subtotalNum_fold_toRat items hp ⟨0, 0⟩
  refine ⟨D, hD, ?_⟩
  rw [hDr]
  unfold Dec.toRat
  norm_num

/-- A digit character is a digit. -/
theorem digitChar_isDigit {d : Nat} (h : d < 10) : (digitChar d).isDigit = true := by
  interval_cases d <;> decide

/-- Every rendered cent string ends in a decimal point and exactly two
digits. -/
theorem hasTwoDecimals_renderCents (n : ℤ) : hasTwoDecimals (renderCents n) = true := by
  have hmod : n.natAbs % 100 < 100 := Nat.mod_lt _ (by omega)
  obtain ⟨x, y, hxy⟩ : ∃ x y, pad2Digits (n.natAbs % 100) = [x, y] := by
    have hlen := pad2Digits_length hmod
    cases hp : pad2Digits (n.natAbs % 100) with
    | nil => rw [hp] at hlen; simp at hlen
    | cons x rest =>
      cases rest with
      | nil => rw [hp] at hlen; simp at hlen
      | cons y rest2 =>
        cases rest2 with
        | nil => exact ⟨x, y, rfl⟩
        | cons z rest3 => rw [hp] at hlen; simp at hlen
  have hx10 : x < 10 := pad2Digits_lt10 _ x (by rw [hxy]; simp)
  have hy10 : y < 10 := pad2Digits_lt10 _ y (by rw [hxy]; simp)
  have hchars : (renderCents n).toList
      = ((if n < 0 then ['-'] else []) ++ natChars (n.natAbs / 100))
          ++ '.' :: [digitChar x, digitChar y] := by
    show renderCentsChars n = _
    unfold renderCentsChars pad2Chars
    rw [hxy]
    simp
  unfold hasTwoDecimals
  rw [hchars, List.reverse_append]
  simp only [List.reverse_cons, List.reverse_nil, List.nil_append, List.cons_append,
    List.append_assoc]
  simp [digitChar_isDigit hx10, digitChar_isDigit hy10]

/-- C10: a freshly constructed MemStorage is pre-seeded by
initializeDemoData: getInvoice demo-1 succeeds with invoice number INV-001,
status paid, subtotal and total 350.00 and exactly the two demo line items,
and getAllInvoices on the fresh store lists exactly this invoice; the store
is not empty. -/
theorem c10_demo_seed :
    (getInvoice demoState ("demo-1")).map
        (fun w => (w.invoice.invoiceNumber, w.invoice.status, w.invoice.subtotal,
          w.invoice.total, w.lineItems))
      = some (("INV-001", "paid", "350.00", "350.00", [demoLine1, demoLine2]))
    ∧ (getAllInvoices demoState).map (fun w => w.invoice.id) = ["demo-1"]
    ∧ demoState.invoices ≠ [] := by
  refine ⟨by decide, by decide, by decide⟩

/-- C9: addLineItem performs no existence check on the referenced invoice:
for any store state and any insert line item whose invoiceId is unknown, the
operation succeeds, the new line item is persisted under its generated id
with that invoiceId, and the referenced invoice is still absent. -/
theorem c9_orphan_line_item (s : MemStorage) (li : InsertLineItemFull)
    (h : mapGet s.invoices li.invoiceId = none) :
    mapGet (addLineItem s li).2.lineItems (genId s.nextId) = some (addLineItem s li).1
    ∧ (addLineItem s li).1.invoiceId = li.invoiceId
    ∧ mapGet (addLineItem s li).2.invoices li.invoiceId = none := by
  refine ⟨?_, rfl, ?_⟩
  · exact mapGet_set_self _ _ _
  · exact h

/-- Witness for C9 at a concrete orphan insert on the demo store. -/
theorem c9_witness :
    mapGet demoState.invoices ("ghost") = none
    ∧ (mapGet (addLineItem demoState ⟨"ghost", "Orphan", some 2, "5.00", "0.00"⟩).2.lineItems
          (genId demoState.nextId)
        = some (addLineItem demoState ⟨"ghost", "Orphan", some 2, "5.00", "0.00"⟩).1
      ∧ (addLineItem demoState ⟨"ghost", "Orphan", some 2, "5.00", "0.00"⟩).1.invoiceId
          = "ghost"
      ∧ mapGet (addLineItem demoState ⟨"ghost", "Orphan", some 2, "5.00", "0.00"⟩).2.invoices
          ("ghost")
        = none) :=
  ⟨by decide,
    c9_orphan_line_item demoState ⟨"ghost", "Orphan", some 2, "5.00", "0.00"⟩ (by decide)⟩

/-- C6: deleteInvoice returns exactly whether the invoice existed (false for
an unknown id; the operation is a total function, so no exception escapes),
removes the invoice so that a subsequent getInvoice returns none, and on
key-consistent stores removes every line item whose invoiceId equals the
deleted id: no surviving stored line item references it. -/
theorem c6_delete_cascade (s : MemStorage) (id : String) (hkeys : KeysConsistent s) :
    (deleteInvoice s id).1 = (mapGet s.invoices id).isSome
    ∧ mapGet (deleteInvoice s id).2.invoices id = none
    ∧ getInvoice (deleteInvoice s id).2 id = none
    ∧ (∀ k it, mapGet (deleteInvoice s id).2.lineItems k = some it → it.invoiceId ≠ id) := by
  refine ⟨mapDelete_existed _ _, mapGet_delete_self _ _, ?_, ?_⟩
  · unfold getInvoice
    rw [show (deleteInvoice s id).2.invoices = (mapDelete s.invoices id).1 from rfl,
      mapGet_delete_self]
    rfl
  · intro k it hget
    rw [show (deleteInvoice s id).2.lineItems
          = (getLineItemsByInvoiceId s id).foldl (fun m it => (mapDelete m it.id).1) s.lineItems
        from rfl, foldl_delete_eq_filter] at hget
    have hmem := mapGet_eq_some_mem hget
    obtain ⟨hin, hpred⟩ := List.mem_filter.mp hmem
    intro heq
    have hkey : it.id = k := hkeys (k, it) hin
    have howned : it ∈ getLineItemsByInvoiceId s id := by
      unfold getLineItemsByInvoiceId
      apply List.mem_filter.mpr
      refine ⟨List.mem_map_of_mem Prod.snd hin, by simp [heq]⟩
    have hany : (getLineItemsByInvoiceId s id).any (fun x => x.id == k) = true :=
      List.any_eq_true.mpr ⟨it, howned, by simp [hkey]⟩
    rw [hany] at hpred
    exact absurd hpred (by simp)

/-- Witness for C6 deleting the demo invoice. -/
theorem c6_witness :
    (∀ p ∈ demoState.lineItems, p.2.id = p.1)
    ∧ ((deleteInvoice demoState ("demo-1")).1
          = (mapGet demoState.invoices ("demo-1")).isSome
      ∧ mapGet (deleteInvoice demoState ("demo-1")).2.invoices ("demo-1") = none
      ∧ getInvoice (deleteInvoice demoState ("demo-1")).2 ("demo-1") = none
      ∧ (∀ k it, mapGet (deleteInvoice demoState ("demo-1")).2.lineItems k = some it →
          it.invoiceId ≠ "demo-1")) :=
  ⟨by decide, c6_delete_cascade demoState ("demo-1") (by unfold KeysConsistent; decide)⟩

/-- C5: updateInvoice on a stored id merges the patch over the existing
invoice and stores the result: the returned value and a subsequent
getInvoice both show the merged invoice with the same line items; every
patch field is reflected and every absent field left unchanged (the getD
equations below, one per field); the line item map is untouched; id and
createdAt are preserved; updatedAt is stamped with the call time and is
strictly greater whenever the clock moved forward. -/
theorem c5_update_merge_frame (s : MemStorage) (id : String) (u : UpdateInvoice) (now : Nat)
    (inv : Invoice) (h : mapGet s.invoices id = some inv) :
    (updateInvoice s id u now).1
        = some ⟨mergeInvoice inv u now, getLineItemsByInvoiceId s id⟩
    ∧ (updateInvoice s id u now).2.lineItems = s.lineItems
    ∧ getInvoice (updateInvoice s id u now).2 id
        = some ⟨mergeInvoice inv u now, getLineItemsByInvoiceId s id⟩
    ∧ (mergeInvoice inv u now).invoiceNumber = u.invoiceNumber.getD inv.invoiceNumber
    ∧ (mergeInvoice inv u now).status = u.status.getD inv.status
    ∧ (mergeInvoice inv u now).companyName = u.companyName.getD inv.companyName
    ∧ (mergeInvoice inv u now).companyEmail = u.companyEmail.getD inv.companyEmail
    ∧ (mergeInvoice inv u now).companyPhone = u.companyPhone.getD inv.companyPhone
    ∧ (mergeInvoice inv u now).companyWebsite = u.companyWebsite.getD inv.companyWebsite
    ∧ (mergeInvoice inv u now).companyAddress = u.companyAddress.getD inv.companyAddress
    ∧ (mergeInvoice inv u now).companyLogo = u.companyLogo.getD inv.companyLogo
    ∧ (mergeInvoice inv u now).clientName = u.clientName.getD inv.clientName
    ∧ (mergeInvoice inv u now).clientEmail = u.clientEmail.getD inv.clientEmail
    ∧ (mergeInvoice inv u now).clientCompany = u.clientCompany.getD inv.clientCompany
    ∧ (mergeInvoice inv u now).clientPhone = u.clientPhone.getD inv.clientPhone
    ∧ (mergeInvoice inv u now).clientAddress = u.clientAddress.getD inv.clientAddress
    ∧ (mergeInvoice inv u now).invoiceDate = u.invoiceDate.getD inv.invoiceDate
    ∧ (mergeInvoice inv u now).dueDate = u.dueDate.getD inv.dueDate
    ∧ (mergeInvoice inv u now).notes = u.notes.getD inv.notes
    ∧ (mergeInvoice inv u now).subtotal = u.subtotal.getD inv.subtotal
    ∧ (mergeInvoice inv u now).tax = mergeOpt u.tax inv.tax
    ∧ (mergeInvoice inv u now).total = u.total.getD inv.total
    ∧ (mergeInvoice inv u now).isHosted = u.isHosted.getD inv.isHosted
    ∧ (mergeInvoice inv u now).isPasswordProtected
        = u.isPasswordProtected.getD inv.isPasswordProtected
    ∧ (mergeInvoice inv u now).password = u.password.getD inv.password
    ∧ (mergeInvoice inv u now).hostedUrl = (u.hostedUrl.map JsStr.str).getD inv.hostedUrl
    ∧ (mergeInvoice inv u now).id = inv.id
    ∧ (mergeInvoice inv u now).createdAt = inv.createdAt
    ∧ (mergeInvoice inv u now).updatedAt = now
    ∧ (inv.updatedAt < now → inv.updatedAt < (mergeInvoice inv u now).updatedAt) := by
  have hfirst : (updateInvoice s id u now).1
      = some ⟨mergeInvoice inv u now, getLineItemsByInvoiceId s id⟩ := by
    simp only [updateInvoice, h]
    rfl
  have hframe : (updateInvoice s id u now).2.lineItems = s.lineItems := by
    simp only [updateInvoice, h]
  have hget : getInvoice (updateInvoice s id u now).2 id
      = some ⟨mergeInvoice inv u now, getLineItemsByInvoiceId s id⟩ := by
    unfold getInvoice
    rw [show (updateInvoice s id u now).2.invoices
          = mapSet s.invoices id (mergeInvoice inv u now) from by simp only [updateInvoice, h],
      mapGet_set_self]
    simp only [Option.map_some']
    rw [show getLineItemsByInvoiceId (updateInvoice s id u now).2 id
          = getLineItemsByInvoiceId s id from by
        unfold getLineItemsByInvoiceId
        rw [hframe]]
  refine ⟨hfirst, hframe, hget, rfl, rfl, rfl, rfl, rfl, rfl, rfl, rfl, rfl, rfl, rfl, rfl,
    rfl, rfl, rfl, rfl, rfl, rfl, rfl, rfl, rfl, rfl, rfl, rfl, rfl, rfl, ?_⟩
  intro hlt
  exact hlt

/-- Witness for C5 patching the demo invoice's status at a later clock. -/
theorem c5_witness :
    mapGet demoState.invoices ("demo-1") = some demoInvoice
    ∧ (mergeInvoice demoInvoice { status := some ("sent") } 1).status = "sent"
    ∧ (mergeInvoice demoInvoice { status := some ("sent") } 1).companyName
        = demoInvoice.companyName
    ∧ (updateInvoice demoState ("demo-1") { status := some ("sent") } 1).2.lineItems
        = demoState.lineItems
    ∧ demoInvoice.updatedAt
        < (mergeInvoice demoInvoice { status := some ("sent") } 1).updatedAt := by
  have h := c5_update_merge_frame demoState ("demo-1") { status := some ("sent") } 1 demoInvoice
    (by decide)
  refine ⟨by decide, ?_, ?_, h.2.1, ?_⟩
  · rw [h.2.2.2.2.1]
    decide
  · rw [h.2.2.2.2.2.1]
    decide
  · exact ((h.2.2.2.2.2.2.2.2.2.2.2.2.2.2.2.2.2.2.2.2.2.2.2.2.2.2.2.2).2) (by decide)

/-- C7 counterexample: an invoice created with isPasswordProtected true but
no password field stored renders its public view with no password submitted,
where the claim requires the locked password prompt. -/
theorem c7_counterexample :
    (mapGet (createInvoice demoState c7req 3).2.invoices (genId 0)).map
        (fun i => (i.isPasswordProtected, i.password))
      = some ((JsBool.val true, JsStr.undef))
    ∧ publicView (createInvoice demoState c7req 3).2 (genId 0) none = ViewResult.rendered := by
  refine ⟨by decide, by decide⟩

/-- C7 as amended: for a stored invoice the public view renders exactly when
isPasswordProtected is not truthy or the submitted query password value is
JavaScript-strict-equal to the stored password value (so two absent values
also unlock); otherwise it shows the password prompt.  For an invoice whose
stored password is a string this is exact string match, and a non-truthy
isPasswordProtected unlocks with no password submitted. -/
theorem c7_amended_view_gate (s : MemStorage) (id : String) (qp : Option String)
    (inv : Invoice) (h : mapGet s.invoices id = some inv) :
    (publicView s id qp = ViewResult.rendered
      ↔ (jsTruthy inv.isPasswordProtected = false
          ∨ jsStrEq (queryVal qp) inv.password = true))
    ∧ (publicView s id qp = ViewResult.passwordGate
      ↔ ¬(jsTruthy inv.isPasswordProtected = false
          ∨ jsStrEq (queryVal qp) inv.password = true)) := by
  have hview : publicView s id qp
      = if jsTruthy inv.isPasswordProtected && !(jsStrEq (queryVal qp) inv.password) then
          ViewResult.passwordGate
        else ViewResult.rendered := by
    simp only [publicView, h]
  rcases Bool.eq_false_or_eq_true
      (jsTruthy inv.isPasswordProtected && !(jsStrEq (queryVal qp) inv.password)) with hc | hc
  · have hand := hc
    rw [Bool.and_eq_true] at hand
    obtain ⟨ht, hs⟩ := hand
    rw [Bool.not_eq_true'] at hs
    rw [hview, if_beq_true hc]
    have hnot : ¬(jsTruthy inv.isPasswordProtected = false
        ∨ jsStrEq (queryVal qp) inv.password = true) := by
      intro hx
      rcases hx with hx | hx
      · rw [ht] at hx
        exact absurd hx (by simp)
      · rw [hs] at hx
        exact absurd hx (by simp)
    refine ⟨⟨fun hx => absurd hx (by simp), fun hx => absurd hx hnot⟩,
      ⟨fun _ => hnot, fun _ => rfl⟩⟩
  · have hor : jsTruthy inv.isPasswordProtected = false
        ∨ jsStrEq (queryVal qp) inv.password = true := by
      rcases Bool.eq_false_or_eq_true (jsTruthy inv.isPasswordProtected) with ht | ht
      · rcases Bool.eq_false_or_eq_true (jsStrEq (queryVal qp) inv.password) with he | he
        · exact Or.inr he
        · rw [ht, he] at hc
          exact absurd hc (by simp)
      · exact Or.inl ht
    rw [hview, if_beq_false hc]
    refine ⟨⟨fun _ => hor, fun _ => rfl⟩,
      ⟨fun hx => absurd hx (by simp), fun hx => absurd hor hx⟩⟩

/-- Witness for C7 on the unprotected demo invoice with no password. -/
theorem c7_witness :
    mapGet demoState.invoices ("demo-1") = some demoInvoice
    ∧ publicView demoState ("demo-1") none = ViewResult.rendered :=
  ⟨by decide,
    (c7_amended_view_gate demoState ("demo-1") none demoInvoice (by decide)).1.mpr
      (Or.inl (by decide))⟩

/-- C8: for a parse-valid send-email request, an unknown invoice id yields
the not-found failure with the store unchanged; a mail dispatch failure
yields the failure report with the store unchanged, so the invoice's status
stays whatever it was; and only on successful dispatch does the handler
answer sent, after which the stored invoice's status is sent. -/
theorem c8_send_email_effects (s : MemStorage) (id : String) (b : SendEmailBody) (now : Nat)
    (hv : validSendEmail b = true) :
    (getInvoice s id = none →
      ∀ mailOk, sendEmailRoute s id b mailOk now = (EmailResult.notFound, s))
    ∧ (getInvoice s id ≠ none →
        sendEmailRoute s id b false now = (EmailResult.mailFailed, s))
    ∧ (∀ inv, mapGet s.invoices id = some inv →
        (sendEmailRoute s id b true now).1 = EmailResult.sent
        ∧ (mapGet (sendEmailRoute s id b true now).2.invoices id).map Invoice.status
            = some ("sent")) := by
  refine ⟨?_, ?_, ?_⟩
  · intro hni mailOk
    simp only [sendEmailRoute, hv, Bool.not_true, hni, Bool.false_eq_true, if_false]
  · intro hns
    obtain ⟨w, hw⟩ := Option.ne_none_iff_exists'.mp hns
    simp only [sendEmailRoute, hv, Bool.not_true, hw, Bool.false_eq_true, if_false]
  · intro inv hinv
    have hw : getInvoice s id = some ⟨inv, getLineItemsByInvoiceId s id⟩ := by
      unfold getInvoice
      rw [hinv]
      rfl
    constructor
    · simp only [sendEmailRoute, hv, Bool.not_true, hw, Bool.false_eq_true, if_false, if_true]
    · simp only [sendEmailRoute, hv, Bool.not_true, hw, Bool.false_eq_true, if_false, if_true]
      rw [show (updateInvoice s id { status := some ("sent") } now).2.invoices
            = mapSet s.invoices id (mergeInvoice inv { status := some ("sent") } now) from by
          simp only [updateInvoice, hinv],
        mapGet_set_self]
      rfl

/-- Witness for C8 sending the demo invoice with a valid body and a
successful dispatch. -/
theorem c8_witness :
    validSendEmail ⟨"a@b.com", some ("Hello"), none⟩ = true
    ∧ ((sendEmailRoute demoState ("demo-1") ⟨"a@b.com", some ("Hello"), none⟩ true 1).1
          = EmailResult.sent
      ∧ (mapGet (sendEmailRoute demoState ("demo-1") ⟨"a@b.com", some ("Hello"), none⟩
            true 1).2.invoices ("demo-1")).map Invoice.status = some ("sent")) :=
  ⟨by decide,
    (c8_send_email_effects demoState ("demo-1") ⟨"a@b.com", some ("Hello"), none⟩ 1
        (by decide)).2.2 demoInvoice (by decide)⟩

/-- C1 counterexample: the demo invoice satisfies the invariant on the fresh
store, but after a single addLineItem on demo-1 the stored invoice's
subtotal no longer equals the sum of its stored line items' amounts, so the
invariant does not hold on every state reachable through store operations. -/
theorem c1_counterexample :
    (getInvoice demoState ("demo-1")).map invoiceInvariant = some true
    ∧ (getInvoice (addLineItem demoState ⟨"demo-1", "Extra", some 1, "10.00", "10.00"⟩).2
          ("demo-1")).map invoiceInvariant
      = some false := by
  refine ⟨by decide, by decide⟩

/-- C1 as amended: the invariants hold for the invoice returned (and stored)
by createInvoice itself, for requests whose tax is the zero string and whose
computed item amounts are exact cent values: total equals subtotal (and
numerically subtotal plus the zero tax), subtotal equals the sum of the
created line items' amounts, and a creation with zero line items yields
subtotal and total 0.00.  The other store operations do not re-derive these
fields, so the invariant is not maintained over arbitrary operation
sequences. -/
theorem c1_amended_create_totals (s : MemStorage) (r : CreateInvoiceRequest) (now : Nat)
    (ns : List ℤ) (htax : r.invoice.tax = some ("0.00")) (hex : ExactItems r.lineItems ns) :
    invoiceInvariant (createInvoice s r now).1 = true
    ∧ (createInvoice s r now).1.invoice.total = (createInvoice s r now).1.invoice.subtotal
    ∧ (r.lineItems = [] →
        (createInvoice s r now).1.invoice.subtotal = "0.00"
        ∧ (createInvoice s r now).1.invoice.total = "0.00")
    ∧ mapGet (createInvoice s r now).2.invoices (genId s.nextId)
        = some (createInvoice s r now).1.invoice := by
  obtain ⟨D, hD, hDx⟩ := subtotalNum_exact hex
  have hsub : (createInvoice s r now).1.invoice.subtotal = renderCents ns.sum := by
    show jsToFixed2 (subtotalNum r.lineItems) = _
    rw [hD]
    exact toFixed2_exact hDx
  have htot : (createInvoice s r now).1.invoice.total = renderCents ns.sum := by
    show jsToFixed2 (subtotalNum r.lineItems) = _
    rw [hD]
    exact toFixed2_exact hDx
  have hamts : (createInvoice s r now).1.lineItems.map LineItem.amount = ns.map renderCents := by
    show (mkLineItems (genId s.nextId) (s.nextId + 1) r.lineItems).map LineItem.amount = _
    exact mkLineItems_amounts r.lineItems ns hex _ _
  have htax2 : (createInvoice s r now).1.invoice.tax = some ("0.00") := htax
  have hns : r.lineItems = [] → ns = [] := by
    intro hnil
    rw [hnil] at hex
    cases ns with
    | nil => rfl
    | cons n ns => exact absurd hex (by simp [ExactItems])
  refine ⟨?_, htot.trans hsub.symm, ?_, ?_⟩
  · unfold invoiceInvariant
    rw [hsub, htot, hamts, htax2, decCents_renderCents, sumCentsList_renders]
    have h000 : decCents ("0.00") = some 0 := by decide
    simp [h000]
  · intro hnil
    constructor
    · rw [hsub, hns hnil]
      decide
    · rw [htot, hns hnil]
      decide
  · exact mapGet_set_self _ _ _

/-- Witness for C1 as amended, creating an invoice with one exact item and
zero tax. -/
theorem c1_witness :
    c1req.invoice.tax = some ("0.00")
    ∧ invoiceInvariant (createInvoice demoState c1req 2).1 = true
    ∧ (createInvoice demoState c1req 2).1.invoice.total
        = (createInvoice demoState c1req 2).1.invoice.subtotal := by
  have hex : ExactItems c1req.lineItems [10000] := by
    simp only [ExactItems, c1req]
    exact ⟨⟨⟨10000, 2⟩, by decide, by unfold ExactCents; norm_num⟩, trivial⟩
  have h := c1_amended_create_totals demoState c1req 2 [10000] rfl hex
  exact ⟨rfl, h.1, h.2.1⟩

/-- C2 counterexample: a create request with parseable rates but tax 5.00
yields an invoice whose tax is not the fixed 0.00 the claim asserts (the
store copies tax from the request and never adds it into total). -/
theorem c2_counterexample :
    (∀ it ∈ c2req.lineItems, (parseFloat it.rate).isSome = true)
    ∧ (createInvoice demoState c2req 5).1.invoice.tax ≠ some ("0.00") := by
  refine ⟨by decide, by decide⟩

/-- C2 as amended: for parseable rates the created invoice's subtotal is the
sum of each item's own rate times quantity rounded to two decimals (the
amount field the caller supplied is ignored), total equals that same
subtotal with no tax added, and tax is copied unchanged from the request
rather than fixed at 0.00. -/
theorem c2_amended_create_subtotal (s : MemStorage) (r : CreateInvoiceRequest) (now : Nat)
    (hp : ∀ it ∈ r.lineItems, (parseFloat it.rate).isSome = true) :
    (∃ D : Dec, subtotalNum r.lineItems = some D
      ∧ D.toRat = specSubtotal r.lineItems
      ∧ (createInvoice s r now).1.invoice.subtotal = toFixed2 D
      ∧ (createInvoice s r now).1.invoice.total = toFixed2 D)
    ∧ (createInvoice s r now).1.invoice.tax = r.invoice.tax
    ∧ (createInvoice s r now).1.lineItems.map LineItem.amount
        = r.lineItems.map (fun it => jsToFixed2 (amountNum it.rate it.quantity)) := by
  obtain ⟨D, hD, hDr⟩ := subtotalNum_toRat hp
  refine ⟨⟨D, hD, hDr, ?_, ?_⟩, rfl, ?_⟩
  · show jsToFixed2 (subtotalNum r.lineItems) = _
    rw [hD]
    rfl
  · show jsToFixed2 (subtotalNum r.lineItems) = _
    rw [hD]
    rfl
  · show (mkLineItems (genId s.nextId) (s.nextId + 1) r.lineItems).map LineItem.amount = _
    exact mkLineItems_amounts_all r.lineItems _ _

/-- Witness for C2 as amended: quantity 3 at rate 19.99 yields item amount
59.97 and invoice total 59.97, with the request's tax passed through. -/
theorem c2_witness :
    (∀ it ∈ c2req.lineItems, (parseFloat it.rate).isSome = true)
    ∧ (createInvoice demoState c2req 5).1.invoice.tax = c2req.invoice.tax
    ∧ (createInvoice demoState c2req 5).1.lineItems.map LineItem.amount = ["59.97"]
    ∧ (createInvoice demoState c2req 5).1.invoice.total = "59.97" := by
  have h := c2_amended_create_subtotal demoState c2req 5 (by decide)
  exact ⟨by decide, h.2.1, by decide, by decide⟩

/-- C3 counterexample: a create request whose line item rate is the
unparseable string abc is not rejected: the invoice is persisted and
readable with subtotal, total and item amount all the string NaN. -/
theorem c3_counterexample :
    parseFloat ("abc") = none
    ∧ (getInvoice (createInvoice demoState c3req 7).2 (genId 0)).map
        (fun w => (w.invoice.subtotal, w.invoice.total, w.lineItems.map LineItem.amount))
      = some (("NaN", "NaN", ["NaN"])) := by
  refine ⟨by decide, by decide⟩

/-- C3 as amended: no layer validates that rate parses as a decimal (the
insert schema checks only that it is a string), so createInvoice on a
request containing an unparseable rate persists the invoice anyway, with
subtotal and total the string NaN and one stored line item per requested
item. -/
theorem c3_amended_nan_persisted (s : MemStorage) (r : CreateInvoiceRequest) (now : Nat)
    (it0 : InsertLineItem) (hmem : it0 ∈ r.lineItems) (hbad : parseFloat it0.rate = none) :
    (createInvoice s r now).1.invoice.subtotal = "NaN"
    ∧ (createInvoice s r now).1.invoice.total = "NaN"
    ∧ mapGet (createInvoice s r now).2.invoices (genId s.nextId)
        = some (createInvoice s r now).1.invoice
    ∧ (createInvoice s r now).1.lineItems.length = r.lineItems.length := by
  have hnone := subtotalNum_bad hmem hbad
  refine ⟨?_, ?_, ?_, ?_⟩
  · show jsToFixed2 (subtotalNum r.lineItems) = _
    rw [hnone]
    rfl
  · show jsToFixed2 (subtotalNum r.lineItems) = _
    rw [hnone]
    rfl
  · exact mapGet_set_self _ _ _
  · show (mkLineItems (genId s.nextId) (s.nextId + 1) r.lineItems).length = _
    exact mkLineItems_length r.lineItems _ _

/-- Witness for C3 as amended at the concrete bad-rate request. -/
theorem c3_witness :
    ((⟨"Bad rate", some 1, "abc", "10.00"⟩ : InsertLineItem) ∈ c3req.lineItems)
    ∧ ((createInvoice demoState c3req 7).1.invoice.subtotal = "NaN"
      ∧ (createInvoice demoState c3req 7).1.invoice.total = "NaN"
      ∧ mapGet (createInvoice demoState c3req 7).2.invoices (genId demoState.nextId)
          = some (createInvoice demoState c3req 7).1.invoice
      ∧ (createInvoice demoState c3req 7).1.lineItems.length = c3req.lineItems.length) :=
  ⟨by decide,
    c3_amended_nan_persisted demoState c3req 7 ⟨"Bad rate", some 1, "abc", "10.00"⟩
      (by decide) (by decide)⟩

/-- Each created line item's stored amount is derived from its own stored
rate and quantity. -/
theorem mkLineItems_amount_self :
    ∀ (items : List InsertLineItem) (invId : String) (k : Nat) (it : LineItem),
      it ∈ mkLineItems invId k items →
      it.amount = jsToFixed2 ((parseFloat it.rate).map (fun d => d.mulInt it.quantity)) := by
  intro items
  induction items with
  | nil =>
    intro _ _ it h
    exact absurd h (List.not_mem_nil it)
  | cons a items ih =>
    intro invId k it h
    rcases List.mem_cons.mp h with heq | htail
    · subst heq
      rfl
    · exact ih invId (k + 1) it htail

/-- C4 counterexample: patching a line item with quantity 0 stores the
quantity but, the patch being falsy, skips the recomputation, leaving the
stale amount 100.00 where the claimed derivation yields 0.00. -/
theorem c4_counterexample :
    ((updateLineItem demoState ("line-1") { quantity := some 0 }).1).map
        (fun it => (it.quantity, it.rate, it.amount))
      = some ((0, "100.00", "100.00"))
    ∧ jsToFixed2 ((parseFloat ("100.00")).map (fun d => d.mulInt 0)) = "0.00" := by
  refine ⟨by decide, by decide⟩

/-- C4 as amended: after createInvoice and addLineItem every stored line
item's amount equals toFixed(2) of its own rate parsed times its stored
quantity, with quantity defaulting to 1 when absent; updateLineItem
recomputes the amount exactly when the patch's rate or quantity is truthy
(non-empty, non-zero) — present falsy values and amount-only patches skip
the recomputation; and every rounded amount is formatted with exactly two
fraction digits. -/
theorem c4_amended_amount_derivation :
    (∀ (s : MemStorage) (r : CreateInvoiceRequest) (now : Nat) (it : LineItem),
        it ∈ (createInvoice s r now).1.lineItems →
        it.amount = jsToFixed2 ((parseFloat it.rate).map (fun d => d.mulInt it.quantity)))
    ∧ (∀ (s : MemStorage) (li : InsertLineItemFull),
        (addLineItem s li).1.amount
          = jsToFixed2 ((parseFloat (addLineItem s li).1.rate).map
              (fun d => d.mulInt (addLineItem s li).1.quantity)))
    ∧ (∀ (s : MemStorage) (li : InsertLineItemFull), li.quantity = none →
        (addLineItem s li).1.quantity = 1)
    ∧ (∀ (s : MemStorage) (id : String) (u : LineItemPatch) (it' : LineItem),
        u.rate ≠ some ("") → u.quantity ≠ some 0 → (u.rate ≠ none ∨ u.quantity ≠ none) →
        (updateLineItem s id u).1 = some it' →
        it'.amount = jsToFixed2 ((parseFloat it'.rate).map (fun d => d.mulInt it'.quantity)))
    ∧ (∀ d : Dec, hasTwoDecimals (toFixed2 d) = true) := by
  refine ⟨?_, ?_, ?_, ?_, ?_⟩
  · intro s r now it h
    exact mkLineItems_amount_self r.lineItems (genId s.nextId) (s.nextId + 1) it h
  · intro s li
    rfl
  · intro s li h
    show qtyOrOne li.quantity = 1
    rw [h]
    rfl
  · intro s id u it' hrate hqty hpresent hres
    cases hget : mapGet s.lineItems id with
    | none =>
      simp only [updateLineItem, hget] at hres
      exact Option.noConfusion hres
    | some it =>
      have hguard : (truthyStrOpt u.rate || truthyIntOpt u.quantity) = true := by
        rcases hpresent with hr | hq
        · obtain ⟨x, hx⟩ := Option.ne_none_iff_exists'.mp hr
          have hxne : x ≠ "" := by
            intro hxe
            rw [hxe] at hx
            exact hrate hx
          have ht : truthyStrOpt u.rate = true := by
            rw [hx]
            show (!(x == "")) = true
            rw [beq_eq_false_iff_ne.mpr hxne]
            rfl
          rw [ht, Bool.true_or]
        · obtain ⟨q, hq2⟩ := Option.ne_none_iff_exists'.mp hq
          have hqne : q ≠ 0 := by
            intro hqe
            rw [hqe] at hq2
            exact hqty hq2
          have ht : truthyIntOpt u.quantity = true := by
            rw [hq2]
            show (!(q == 0)) = true
            rw [beq_eq_false_iff_ne.mpr hqne]
            rfl
          rw [ht, Bool.or_true]
      have hrx : (if truthyStrOpt u.rate then u.rate.getD it.rate else it.rate)
          = u.rate.getD it.rate := by
        cases hu : u.rate with
        | none => rfl
        | some x =>
          have hxne : x ≠ "" := by
            intro hxe
            rw [hxe] at hu
            exact hrate hu
          show (if !(x == "") then (some x).getD it.rate else it.rate) = (some x).getD it.rate
          rw [beq_eq_false_iff_ne.mpr hxne]
          rfl
      have hqx : (if truthyIntOpt u.quantity then u.quantity.getD it.quantity else it.quantity)
          = u.quantity.getD it.quantity := by
        cases hu : u.quantity with
        | none => rfl
        | some q =>
          have hqne : q ≠ 0 := by
            intro hqe
            rw [hqe] at hu
            exact hqty hu
          show (if !(q == 0) then (some q).getD it.quantity else it.quantity)
            = (some q).getD it.quantity
          rw [beq_eq_false_iff_ne.mpr hqne]
          rfl
      have hcalc : (updateLineItem s id u).1
          = some { mergeLineItem it u with
              amount := jsToFixed2 ((parseFloat (u.rate.getD it.rate)).map
                (fun d => d.mulInt (u.quantity.getD it.quantity))) } := by
        simp only [updateLineItem, hget]
        rw [if_beq_true hguard, hrx, hqx]
      rw [hcalc] at hres
      have hit : it' = { mergeLineItem it u with
          amount := jsToFixed2 ((parseFloat (u.rate.getD it.rate)).map
            (fun d => d.mulInt (u.quantity.getD it.quantity))) } := by
        exact (Option.some.injEq _ _ ▸ hres).symm
      rw [hit]
      rfl
  · intro d
    exact hasTwoDecimals_renderCents _

/-- Witness for C4 as amended, patching the demo line item's rate. -/
theorem c4_witness :
    ((updateLineItem demoState ("line-1") { rate := some ("50.00") }).1 = some c4item)
    ∧ c4item.amount
        = jsToFixed2 ((parseFloat c4item.rate).map (fun d => d.mulInt c4item.quantity)) := by
  refine ⟨by decide, ?_⟩
  exact c4_amended_amount_derivation.2.2.2.1 demoState ("line-1") { rate := some ("50.00") }
    c4item (by decide) (by decide) (Or.inl (by decide)) (by decide)

end InvoiceApp
